import Mathlib

/-!
Verification development for the Architex document workbench
(`src/frontend/src/components/AIOracle.jsx`, `Workbench` component).

The embedding works on `List Char` (the characters of the JavaScript
strings).  The regex-based substitutions of `renderMarkdown`, the
`extractMermaidDiagrams` effect, the editor-change handler and the React
state transitions are modelled as executable Lean functions.
-/

/-- `liPre p l` decides whether the character list `p` is a prefix of `l`
(the anchored test a JavaScript regex literal performs at one position). -/
def liPre : List Char → List Char → Bool
  | [], _ => true
  | _ :: _, [] => false
  | p :: ps, c :: cs => p == c && liPre ps cs

/-- First occurrence of the literal pattern `p` in `l`: returns the text
before the occurrence and the text after it (the scan a `g`-flagged
JavaScript regex performs left to right). -/
def splitFirst (p : List Char) : List Char → Option (List Char × List Char)
  | [] => none
  | c :: rest =>
    if liPre p (c :: rest) then some ([], (c :: rest).drop p.length)
    else
      match splitFirst p rest with
      | none => none
      | some (pre, post) => some (c :: pre, post)

/-- Last occurrence of the literal pattern `p` in `l` (the position a
greedy `(.*)` followed by the pattern backtracks to). -/
def splitLast (p : List Char) : List Char → Option (List Char × List Char)
  | [] => none
  | c :: rest =>
    match splitLast p rest with
    | some (pre, post) => some (c :: pre, post)
    | none =>
      if liPre p (c :: rest) then some ([], (c :: rest).drop p.length)
      else none

theorem liPre_eq_append (p : List Char) :
    ∀ l : List Char, liPre p l = true → l = p ++ l.drop p.length := by
  induction p with
  | nil => intro l _; simp
  | cons a as ih =>
    intro l h
    cases l with
    | nil => simp [liPre] at h
    | cons c cs =>
      simp only [liPre, Bool.and_eq_true, beq_iff_eq] at h
      simpa [h.1] using ih cs h.2

theorem splitFirst_eq_append (p : List Char) :
    ∀ (l pre post : List Char), splitFirst p l = some (pre, post) →
      l = pre ++ p ++ post := by
  intro l
  induction l with
  | nil => intro pre post h; simp [splitFirst] at h
  | cons c rest ih =>
    intro pre post h
    rw [splitFirst] at h
    by_cases hp : liPre p (c :: rest) = true
    · rw [if_pos hp] at h
      simp only [Option.some.injEq, Prod.mk.injEq] at h
      obtain ⟨h1, h2⟩ := h
      subst h1; subst h2
      simpa using liPre_eq_append p (c :: rest) hp
    · rw [if_neg hp] at h
      cases hs : splitFirst p rest with
      | none => rw [hs] at h; cases h
      | some pr =>
        obtain ⟨pre', post'⟩ := pr
        rw [hs] at h
        simp only [Option.some.injEq, Prod.mk.injEq] at h
        obtain ⟨h1, h2⟩ := h
        subst h1; subst h2
        simpa using ih pre' post' hs

theorem splitLast_eq_append (p : List Char) :
    ∀ (l pre post : List Char), splitLast p l = some (pre, post) →
      l = pre ++ p ++ post := by
  intro l
  induction l with
  | nil => intro pre post h; simp [splitLast] at h
  | cons c rest ih =>
    intro pre post h
    cases hs : splitLast p rest with
    | some pr =>
      obtain ⟨pre', post'⟩ := pr
      rw [splitLast, hs] at h
      simp only [Option.some.injEq, Prod.mk.injEq] at h
      obtain ⟨h1, h2⟩ := h
      subst h1; subst h2
      simpa using ih pre' post' hs
    | none =>
      rw [splitLast, hs] at h
      by_cases hp : liPre p (c :: rest) = true
      · rw [if_pos hp] at h
        simp only [Option.some.injEq, Prod.mk.injEq] at h
        obtain ⟨h1, h2⟩ := h
        subst h1; subst h2
        simpa using liPre_eq_append p (c :: rest) hp
      · rw [if_neg hp] at h
        cases h

-- quick sanity checks of the embedding primitives
example : "ab".data = ['a', 'b'] := rfl
example : splitFirst ['b'] "abc".data = some (['a'], ['c']) := by decide
example : splitLast ['*', '*'] "***".data = some (['*'], []) := by decide
example : splitFirst ['z'] "abc".data = none := by decide

/-- Scanning a text whose first part `l` does not contain the head
character of the pattern only finds occurrences in the remainder `r`. -/
theorem splitFirst_append_of_not_mem (c : Char) (p : List Char) :
    ∀ (l r : List Char), c ∉ l →
      splitFirst (c :: p) (l ++ r) =
        (splitFirst (c :: p) r).map (fun x => (l ++ x.1, x.2)) := by
  intro l
  induction l with
  | nil =>
    intro r _
    cases hs : splitFirst (c :: p) r with
    | none => simp [hs]
    | some pr => simp [hs]
  | cons a l' ih =>
    intro r hmem
    have hac : ¬ (c == a) = true := by
      simp only [beq_iff_eq]
      intro heq
      exact hmem (heq ▸ List.mem_cons_self a l')
    have hne : liPre (c :: p) (a :: (l' ++ r)) = false := by
      simp [liPre, hac]
    rw [List.cons_append, splitFirst, hne]
    simp only [Bool.false_eq_true, if_false]
    rw [ih r (fun hx => hmem (List.mem_cons_of_mem a hx))]
    cases hs : splitFirst (c :: p) r with
    | none => simp
    | some pr => simp

/-- A pattern whose head character does not occur in the text is not found. -/
theorem splitFirst_eq_none_of_not_mem (c : Char) (p : List Char)
    (l : List Char) (h : c ∉ l) : splitFirst (c :: p) l = none := by
  have := splitFirst_append_of_not_mem c p l [] h
  simpa [splitFirst] using this

/-- `splitLines` cuts a character list at every newline, exactly the line
structure the `m` flag of a JavaScript regex exposes. -/
def splitLines : List Char → List (List Char)
  | [] => [[]]
  | c :: rest =>
    if c = '\n' then [] :: splitLines rest
    else
      match splitLines rest with
      | [] => [[c]]
      | l :: ls => (c :: l) :: ls

/-- Joins lines back with newlines (inverse of `splitLines`). -/
def joinLines : List (List Char) → List Char
  | [] => []
  | [l] => l
  | l :: l' :: ls => l ++ '\n' :: joinLines (l' :: ls)

/-- Applies a per-line rewrite to every line of a text, the way a
line-anchored `g`/`m` JavaScript replace acts on a multi-line string. -/
def mapLines (f : List Char → List Char) (s : List Char) : List Char :=
  joinLines ((splitLines s).map f)

theorem splitLines_ne_nil (l : List Char) : splitLines l ≠ [] := by
  induction l with
  | nil => simp [splitLines]
  | cons c rest ih =>
    rw [splitLines]
    by_cases hc : c = '\n'
    · simp [hc]
    · rw [if_neg hc]
      cases hs : splitLines rest with
      | nil => simp
      | cons a as => simp

theorem splitLines_of_not_mem (l : List Char) (h : '\n' ∉ l) :
    splitLines l = [l] := by
  induction l with
  | nil => rfl
  | cons c rest ih =>
    have hc : c ≠ '\n' := fun hx => h (hx ▸ List.mem_cons_self c rest)
    have hr : '\n' ∉ rest := fun hx => h (List.mem_cons_of_mem c hx)
    rw [splitLines, if_neg hc, ih hr]

theorem splitLines_append (l r : List Char) (h : '\n' ∉ l) :
    splitLines (l ++ '\n' :: r) = l :: splitLines r := by
  induction l with
  | nil => simp [splitLines]
  | cons c rest ih =>
    have hc : c ≠ '\n' := fun hx => h (hx ▸ List.mem_cons_self c rest)
    have hr : '\n' ∉ rest := fun hx => h (List.mem_cons_of_mem c hx)
    rw [List.cons_append, splitLines, if_neg hc, ih hr]

theorem mapLines_single (f : List Char → List Char) (l : List Char)
    (h : '\n' ∉ l) : mapLines f l = f l := by
  rw [mapLines, splitLines_of_not_mem l h]
  rfl

/-- The final `.replace(/\n/g, '<br>')` pass of `renderMarkdown`. -/
def lineBreakRule : List Char → List Char
  | [] => []
  | c :: rest => (if c = '\n' then "<br>".data else [c]) ++ lineBreakRule rest

theorem lineBreakRule_of_not_mem (l : List Char) (h : '\n' ∉ l) :
    lineBreakRule l = l := by
  induction l with
  | nil => rfl
  | cons c rest ih =>
    have hc : c ≠ '\n' := fun hx => h (hx ▸ List.mem_cons_self c rest)
    have hr : '\n' ∉ rest := fun hx => h (List.mem_cons_of_mem c hx)
    rw [lineBreakRule, if_neg hc, ih hr]
    rfl

/-! ## Markdown Projector (`renderMarkdown` in `AIOracle.jsx`)

Each `.replace` call of the source is one rule below; `renderMarkdown`
chains them in the exact source order: `h1`, `h2`, `h3`, bold, italic,
mermaid fence, generic code fence, line breaks. -/

/-- Replacement text `<h1 class="text-3xl font-bold mb-4">` of the
`^# (.*$)` rule. -/
def h1Open : List Char := "<h1 class=\"text-3xl font-bold mb-4\">".data

/-- Replacement text of the `^## (.*$)` rule. -/
def h2Open : List Char := "<h2 class=\"text-2xl font-semibold mb-3\">".data

/-- Replacement text of the `^### (.*$)` rule. -/
def h3Open : List Char := "<h3 class=\"text-xl font-medium mb-2\">".data

/-- `.replace(/^# (.*$)/gim, '<h1 ...>$1</h1>')` on one line. -/
def lineH1 (l : List Char) : List Char :=
  if liPre ['#', ' '] l then h1Open ++ l.drop 2 ++ "</h1>".data else l

/-- `.replace(/^## (.*$)/gim, '<h2 ...>$1</h2>')` on one line. -/
def lineH2 (l : List Char) : List Char :=
  if liPre ['#', '#', ' '] l then h2Open ++ l.drop 3 ++ "</h2>".data else l

/-- `.replace(/^### (.*$)/gim, '<h3 ...>$1</h3>')` on one line. -/
def lineH3 (l : List Char) : List Char :=
  if liPre ['#', '#', '#', ' '] l then h3Open ++ l.drop 4 ++ "</h3>".data
  else l

/-- `.replace(/\*\*(.*)\*\*/gim, '<strong>$1</strong>')` on one line: the
greedy capture spans from the first `**` to the last disjoint `**`. -/
def boldLine (l : List Char) : List Char :=
  match splitFirst ['*', '*'] l with
  | none => l
  | some (pre, rest) =>
    match splitLast ['*', '*'] rest with
    | none => l
    | some (mid, post) =>
      pre ++ "<strong>".data ++ mid ++ "</strong>".data ++ post

/-- `.replace(/\*(.*)\*/gim, '<em>$1</em>')` on one line. -/
def italicLine (l : List Char) : List Char :=
  match splitFirst ['*'] l with
  | none => l
  | some (pre, rest) =>
    match splitLast ['*'] rest with
    | none => l
    | some (mid, post) => pre ++ "<em>".data ++ mid ++ "</em>".data ++ post

theorem boldLine_of_not_mem (l : List Char) (h : '*' ∉ l) :
    boldLine l = l := by
  rw [boldLine, splitFirst_eq_none_of_not_mem '*' ['*'] l h]

theorem italicLine_of_not_mem (l : List Char) (h : '*' ∉ l) :
    italicLine l = l := by
  rw [italicLine, splitFirst_eq_none_of_not_mem '*' [] l h]

theorem not_mem_boldLine (c : Char) (l : List Char) (hl : c ∉ l)
    (ho : c ∉ "<strong>".data) (hc : c ∉ "</strong>".data) :
    c ∉ boldLine l := by
  rw [boldLine]
  cases h1 : splitFirst ['*', '*'] l with
  | none => exact hl
  | some pr1 =>
    obtain ⟨pre, rest⟩ := pr1
    dsimp only
    cases h2 : splitLast ['*', '*'] rest with
    | none => exact hl
    | some pr2 =>
      obtain ⟨mid, post⟩ := pr2
      dsimp only
      have hsp := splitFirst_eq_append _ l pre rest h1
      have hsl := splitLast_eq_append _ rest mid post h2
      intro hmem
      simp only [List.mem_append] at hmem
      rcases hmem with ((((h | h) | h) | h) | h)
      · exact hl (hsp ▸ List.mem_append_left _ (List.mem_append_left _ h))
      · exact ho h
      · exact hl (hsp ▸ List.mem_append_right _
          (hsl ▸ List.mem_append_left _ (List.mem_append_left _ h)))
      · exact hc h
      · exact hl (hsp ▸ List.mem_append_right _
          (hsl ▸ List.mem_append_right _ h))

theorem not_mem_italicLine (c : Char) (l : List Char) (hl : c ∉ l)
    (ho : c ∉ "<em>".data) (hc : c ∉ "</em>".data) :
    c ∉ italicLine l := by
  rw [italicLine]
  cases h1 : splitFirst ['*'] l with
  | none => exact hl
  | some pr1 =>
    obtain ⟨pre, rest⟩ := pr1
    dsimp only
    cases h2 : splitLast ['*'] rest with
    | none => exact hl
    | some pr2 =>
      obtain ⟨mid, post⟩ := pr2
      dsimp only
      have hsp := splitFirst_eq_append _ l pre rest h1
      have hsl := splitLast_eq_append _ rest mid post h2
      intro hmem
      simp only [List.mem_append] at hmem
      rcases hmem with ((((h | h) | h) | h) | h)
      · exact hl (hsp ▸ List.mem_append_left _ (List.mem_append_left _ h))
      · exact ho h
      · exact hl (hsp ▸ List.mem_append_right _
          (hsl ▸ List.mem_append_left _ (List.mem_append_left _ h)))
      · exact hc h
      · exact hl (hsp ▸ List.mem_append_right _
          (hsl ▸ List.mem_append_right _ h))

/-- Opening marker of a mermaid fence, `"```mermaid\n"`. -/
def mmHdr : List Char := ['`', '`', '`', 'm', 'e', 'r', 'm', 'a', 'i', 'd', '\n']

/-- Closing marker `"\n```"` of a fenced block. -/
def mmCls : List Char := ['\n', '`', '`', '`']

/-- The replacement text of the `/```mermaid\n([\s\S]*?)\n```/g` rule. -/
def diagramPlaceholder : List Char :=
  "<div class=\"diagram-placeholder\">Diagram rendered above</div>".data

/-- Fuel-indexed scanner for `.replace(/```mermaid\n([\s\S]*?)\n```/g, ...)`:
finds the next `"```mermaid\n"`, lazily matches up to the nearest
`"\n```"`, replaces the whole fence, and continues after it. -/
def mermaidF : Nat → List Char → List Char
  | 0, s => s
  | fuel + 1, s =>
    match splitFirst mmHdr s with
    | none => s
    | some (pre, rest) =>
      match splitFirst mmCls rest with
      | none => s
      | some (_, after) => pre ++ diagramPlaceholder ++ mermaidF fuel after

/-- The mermaid-fence replacement rule of `renderMarkdown`. -/
def mermaidRule (s : List Char) : List Char := mermaidF s.length s

/-- Opening replacement text of the generic code-fence rule
(`<pre class="bg-muted p-4 rounded-lg overflow-x-auto"><code>`). -/
def preOpen : List Char :=
  "<pre class=\"bg-muted p-4 rounded-lg overflow-x-auto\"><code>".data

/-- Closing replacement text `</code></pre>` of the code-fence rule. -/
def preClose : List Char := "</code></pre>".data

/-- Fuel-indexed scanner for `.replace(/```(.*?)\n([\s\S]*?)\n```/g, ...)`:
the language tag runs to the first newline after the opening backticks and
is dropped; the body runs lazily to the nearest `"\n```"`. -/
def codeFenceF : Nat → List Char → List Char
  | 0, s => s
  | fuel + 1, s =>
    match splitFirst ['`', '`', '`'] s with
    | none => s
    | some (pre, rest1) =>
      match splitFirst ['\n'] rest1 with
      | none => s
      | some (_, rest2) =>
        match splitFirst mmCls rest2 with
        | none => s
        | some (body, after) =>
          pre ++ preOpen ++ body ++ preClose ++ codeFenceF fuel after

/-- The generic code-fence replacement rule of `renderMarkdown`. -/
def codeFenceRule (s : List Char) : List Char := codeFenceF s.length s

theorem mermaidF_of_none (s : List Char) (h : splitFirst mmHdr s = none) :
    ∀ fuel, mermaidF fuel s = s := by
  intro fuel
  cases fuel with
  | zero => rfl
  | succ f => rw [mermaidF, h]

theorem mermaidRule_of_none (s : List Char) (h : splitFirst mmHdr s = none) :
    mermaidRule s = s :=
  mermaidF_of_none s h s.length

theorem codeFenceF_nil : ∀ fuel, codeFenceF fuel [] = [] := by
  intro fuel
  cases fuel with
  | zero => rfl
  | succ f => rw [codeFenceF]; rfl

theorem codeFenceF_of_none (s : List Char)
    (h : splitFirst ['`', '`', '`'] s = none) :
    ∀ fuel, codeFenceF fuel s = s := by
  intro fuel
  cases fuel with
  | zero => rfl
  | succ f => rw [codeFenceF, h]

theorem codeFenceRule_of_none (s : List Char)
    (h : splitFirst ['`', '`', '`'] s = none) : codeFenceRule s = s :=
  codeFenceF_of_none s h s.length

/-- One step of the code-fence scan, for a text whose single fence closes
at the very end: the language tag is dropped, the body is wrapped. -/
theorem codeFenceRule_step (s pre rest1 lang rest2 body : List Char)
    (h1 : splitFirst ['`', '`', '`'] s = some (pre, rest1))
    (h2 : splitFirst ['\n'] rest1 = some (lang, rest2))
    (h3 : splitFirst mmCls rest2 = some (body, [])) :
    codeFenceRule s = pre ++ preOpen ++ body ++ preClose := by
  have hsp := splitFirst_eq_append _ s pre rest1 h1
  have hpos : 0 < s.length := by
    rw [hsp]
    simp [List.length_append]
  obtain ⟨k, hk⟩ : ∃ k, s.length = k + 1 := ⟨s.length - 1, by omega⟩
  rw [codeFenceRule, hk, codeFenceF, h1]
  dsimp only
  rw [h2]
  dsimp only
  rw [h3]
  dsimp only
  rw [codeFenceF_nil k]
  simp

/-- The `renderMarkdown` projector of `AIOracle.jsx`: the eight `.replace`
passes in source order (headings 1-3, bold, italic, mermaid fence, code
fence, newline-to-`<br>`). -/
def renderMarkdown (s : List Char) : List Char :=
  lineBreakRule (codeFenceRule (mermaidRule
    (mapLines italicLine (mapLines boldLine
      (mapLines lineH3 (mapLines lineH2 (mapLines lineH1 s)))))))

-- sanity checks of the projector against hand-evaluated JavaScript runs
example : renderMarkdown "# Title".data =
    "<h1 class=\"text-3xl font-bold mb-4\">Title</h1>".data := by decide
example : renderMarkdown "a **b** c".data = "a <strong>b</strong> c".data := by
  decide
example : renderMarkdown "x\ny".data = "x<br>y".data := by decide
example : renderMarkdown "```mermaid\ngraph TB\n```".data =
    diagramPlaceholder := by decide

/-! ## Diagram Extractor (`extractMermaidDiagrams` in `AIOracle.jsx`)

`[...content.matchAll(/```mermaid\n([\s\S]*?)\n```/g)]` produces one entry
per matched fence; each match records its capture (the fence body), its
occurrence order, and its offsets in the document. -/

/-- One extracted diagram description (spec data model `DiagramBlock`):
`sourceText` is the regex capture, `ordinalIndex` the occurrence order,
`spanStart`/`spanEnd` the offsets of the full fenced region. -/
structure DiagramBlock where
  sourceText : List Char
  ordinalIndex : Nat
  spanStart : Nat
  spanEnd : Nat
deriving DecidableEq, Repr

/-- Fuel-indexed matcher behind `matchAll`: finds the next
`"```mermaid\n"`, lazily closes at the nearest `"\n```"`, records the
block, and continues scanning after the closing marker. -/
def extractF : Nat → List Char → Nat → Nat → List DiagramBlock
  | 0, _, _, _ => []
  | fuel + 1, s, pos, ord =>
    match splitFirst mmHdr s with
    | none => []
    | some (pre, rest) =>
      match splitFirst mmCls rest with
      | none => []
      | some (body, after) =>
        let start := pos + pre.length
        let stop := start + mmHdr.length + body.length + mmCls.length
        ⟨body, ord, start, stop⟩ :: extractF fuel after stop (ord + 1)

/-- `extractMermaidDiagrams` applied to a document text: the ordered list
of all mermaid fences with their captures and spans. -/
def extractMermaidDiagrams (s : List Char) : List DiagramBlock :=
  extractF s.length s 0 0

-- sanity checks against the spec scenario of section 8
example : extractMermaidDiagrams "# Title\n\n```mermaid\ngraph TB\nA-->B\n```\n".data =
    [⟨"graph TB\nA-->B".data, 0, 9, 38⟩] := by decide
example : extractMermaidDiagrams "no fence here".data = [] := by decide
example : extractMermaidDiagrams "```mermaid\n\n```".data =
    [⟨[], 0, 0, 15⟩] := by decide

theorem extractF_spec :
    ∀ (fuel : Nat) (s : List Char) (pos ord : Nat), s.length ≤ fuel →
      ((extractF fuel s pos ord).map DiagramBlock.ordinalIndex
          = List.range' ord (extractF fuel s pos ord).length) ∧
      (∀ b ∈ extractF fuel s pos ord, pos ≤ b.spanStart ∧
          (s.drop (b.spanStart - pos)).take (b.spanEnd - b.spanStart)
            = mmHdr ++ b.sourceText ++ mmCls) ∧
      List.Chain' (fun a b => a.spanEnd ≤ b.spanStart)
        (extractF fuel s pos ord) := by
  intro fuel
  induction fuel with
  | zero => intro s pos ord _; simp [extractF]
  | succ fuel ih =>
    intro s pos ord hlen
    rw [extractF]
    cases h1 : splitFirst mmHdr s with
    | none => simp
    | some pr1 =>
      obtain ⟨pre, rest⟩ := pr1
      cases h2 : splitFirst mmCls rest with
      | none => simp [h2]
      | some pr2 =>
        obtain ⟨body, after⟩ := pr2
        simp only [h2]
        have hs : s = pre ++ mmHdr ++ rest := splitFirst_eq_append mmHdr s pre rest h1
        have hr : rest = body ++ mmCls ++ after := splitFirst_eq_append mmCls rest body after h2
        have hm11 : mmHdr.length = 11 := rfl
        have hm4 : mmCls.length = 4 := rfl
        have hsl : s.length =
            pre.length + mmHdr.length + body.length + mmCls.length + after.length := by
          rw [hs, hr]; simp [List.length_append]; omega
        have hafter : after.length ≤ fuel := by omega
        obtain ⟨ihmap, ihmem, ihchain⟩ :=
          ih after (pos + pre.length + mmHdr.length + body.length + mmCls.length)
            (ord + 1) hafter
        refine ⟨?_, ?_, ?_⟩
        · simp only [List.map_cons, List.length_cons, List.range'_succ]
          rw [ihmap]
        · intro b hb
          rcases List.mem_cons.mp hb with hb | hb
          · subst hb
            refine ⟨Nat.le_add_right pos pre.length, ?_⟩
            show (s.drop (pos + pre.length - pos)).take
                (pos + pre.length + mmHdr.length + body.length + mmCls.length -
                  (pos + pre.length)) = mmHdr ++ body ++ mmCls
            have hd : pos + pre.length - pos = pre.length := by omega
            have ht : pos + pre.length + mmHdr.length + body.length + mmCls.length -
                (pos + pre.length) = mmHdr.length + body.length + mmCls.length := by
              omega
            rw [hd, ht]
            have hs2 : s = pre ++ ((mmHdr ++ body ++ mmCls) ++ after) := by
              rw [hs, hr]; simp [List.append_assoc]
            rw [hs2, List.drop_left' rfl,
              List.take_left' (by simp [List.length_append]; omega)]
          · obtain ⟨hposb, hslice⟩ := ihmem b hb
            refine ⟨by omega, ?_⟩
            have hs2 : s = (pre ++ mmHdr ++ body ++ mmCls) ++ after := by
              rw [hs, hr]; simp [List.append_assoc]
            have hPlen : (pre ++ mmHdr ++ body ++ mmCls).length
                = pre.length + mmHdr.length + body.length + mmCls.length := by
              simp [List.length_append]; omega
            have hdropP :
                s.drop (pre.length + mmHdr.length + body.length + mmCls.length)
                  = after := by
              rw [hs2, List.drop_left' hPlen]
            have hd : s.drop (b.spanStart - pos) = after.drop
                (b.spanStart -
                  (pos + pre.length + mmHdr.length + body.length + mmCls.length)) := by
              rw [← hdropP, List.drop_drop]
              congr 1
              omega
            rw [hd, hslice]
        · rw [List.chain'_cons']
          refine ⟨?_, ihchain⟩
          intro y hy
          exact (ihmem y (List.mem_of_mem_head? hy)).1

/-- Every extracted block's ordinal is at least the starting ordinal of
the scan (used to show the blocks after the first all have ordinal ≥ 1). -/
theorem extractF_ord_le (fuel : Nat) (s : List Char) (pos ord : Nat)
    (hlen : s.length ≤ fuel) :
    ∀ b ∈ extractF fuel s pos ord, ord ≤ b.ordinalIndex := by
  intro b hb
  have hmap := (extractF_spec fuel s pos ord hlen).1
  have : b.ordinalIndex ∈ (extractF fuel s pos ord).map DiagramBlock.ordinalIndex :=
    List.mem_map_of_mem DiagramBlock.ordinalIndex hb
  rw [hmap] at this
  exact (List.mem_range'_1.mp this).1

/-! ## Outline view (`TabsContent value="outline"` in `AIOracle.jsx`)

The outline pane of the `Workbench` component is a hard-coded list of ten
anchors (`pl-0` / `pl-4` / `pl-8` paddings); nothing in it reads the
document text. -/

/-- The outline pane as a function of the document text: the rendered
entries are the fixed `(padding, label)` pairs of the source markup and do
not depend on the text argument. -/
def outlineView (_text : List Char) : List (Nat × List Char) :=
  [ (0, "Solution Architecture Document".data),
    (4, "Context".data),
    (4, "Requirements".data),
    (4, "Architecture Decision Record".data),
    (8, "Status".data),
    (8, "Context".data),
    (8, "Decision".data),
    (8, "Consequences".data),
    (4, "System Architecture".data),
    (4, "Implementation Plan".data) ]

/-! ## Workbench Controller state machine

`Workbench` keeps `content`, `activeTab` and `diagramHtml` in React state.
An edit runs `handleEditorChange` and (when the new text differs, since
the effect depends on `[content]`) re-runs the extraction effect, which
issues one `mermaid.render` call for the first extracted block, or clears
`diagramHtml` when there is no block.  A completing render commits its
result unconditionally via `setDiagramHtml`.  `revision` counts accepted
edits (the spec's `Document.revision`); the source attaches no revision
information to in-flight renders. -/

/-- Outcome reported by the external diagram rendering service for one
`mermaid.render` call: a resolved `svg`, or a thrown error with a reason. -/
inductive RenderResult where
  | ok : List Char → RenderResult
  | err : List Char → RenderResult
deriving DecidableEq, Repr

/-- The markup committed for a completed render: the returned `svg` on
success, the fixed `Error rendering diagram` paragraph from the `catch`
branch on failure.  Both branches produce a value; nothing escapes. -/
def htmlOfResult : RenderResult → List Char
  | .ok svg => svg
  | .err _ => "<p class=\"text-red-500\">Error rendering diagram</p>".data

/-- The fixed failure markup set by the `catch` branch. -/
def errorHtml : List Char :=
  "<p class=\"text-red-500\">Error rendering diagram</p>".data

/-- React state of the `Workbench` component plus model bookkeeping:
`pending` is the list of in-flight `mermaid.render` calls, each tagged
with the revision that issued it and the source text passed to the
service. -/
structure WState where
  content : List Char
  revision : Nat
  activeTab : List Char
  diagramHtml : List Char
  pending : List (Nat × List Char)
deriving DecidableEq, Repr

/-- `handleEditorChange`: `(value) => setContent(value || '')` — an absent
editor value is coerced to the empty string. -/
def handleEditorChange (value : Option (List Char)) : List Char :=
  value.getD []

/-- External events driving the workbench: an editor change (possibly with
an absent value), the completion of the in-flight render at a given index
with the service's result, or a tab switch. -/
inductive WEvent where
  | edit : Option (List Char) → WEvent
  | complete : Nat → RenderResult → WEvent
  | switchTab : List Char → WEvent

/-- One transition of the workbench.  An edit stores the coerced text; if
it changed, the `[content]` effect re-runs: no block clears `diagramHtml`,
otherwise exactly one render of the first block is issued.  A completion
commits `htmlOfResult` unconditionally (the source compares no revisions).
A tab switch only stores the tab value. -/
def step (s : WState) : WEvent → WState
  | .edit v =>
    let c := handleEditorChange v
    if c = s.content then s
    else
      match extractMermaidDiagrams c with
      | [] =>
        { s with content := c, revision := s.revision + 1, diagramHtml := [] }
      | b :: _ =>
        { s with content := c, revision := s.revision + 1,
                 pending := s.pending ++ [(s.revision + 1, b.sourceText)] }
  | .complete i r =>
    if i < s.pending.length then
      { s with diagramHtml := htmlOfResult r, pending := s.pending.eraseIdx i }
    else s
  | .switchTab t => { s with activeTab := t }

/-- Initial workbench state of the model: blank document, editor tab. -/
def w0 : WState := ⟨[], 0, "editor".data, [], []⟩

-- sanity check: an edit issues one render call for the first block only
example :
    (step w0 (.edit (some "```mermaid\na\n```".data))).pending =
      [(1, ['a'])] := by decide
example :
    (step w0 (.edit (some "plain".data))).diagramHtml = [] := by decide

/-! ## Helper lemmas for the projector claims -/

theorem not_mem_append3 (c : Char) (a t b : List Char) (ha : c ∉ a)
    (ht : c ∉ t) (hb : c ∉ b) : c ∉ a ++ t ++ b := by
  intro h
  rcases List.mem_append.mp h with h | h
  · rcases List.mem_append.mp h with h | h
    · exact ha h
    · exact ht h
  · exact hb h

theorem not_mem_cons2 (c a : Char) (l : List Char) (h1 : c ≠ a)
    (h2 : c ∉ l) : c ∉ a :: l := by
  intro h
  rcases List.mem_cons.mp h with h | h
  · exact h1 h
  · exact h2 h

theorem splitFirst_cons_of_liPre_false (p : List Char) (c : Char)
    (l : List Char) (h : liPre p (c :: l) = false) :
    splitFirst p (c :: l) = (splitFirst p l).map (fun x => (c :: x.1, x.2)) := by
  rw [splitFirst, h]
  simp only [Bool.false_eq_true, if_false]
  cases hs : splitFirst p l with
  | none => simp
  | some pr => simp

/-- A per-line pass over a single-fence text `"```\n" ++ m ++ "\n```"`
touches exactly the middle line. -/
theorem mapLines_fence (f : List Char → List Char) (m : List Char)
    (hf : f ['`', '`', '`'] = ['`', '`', '`']) (hm : '\n' ∉ m) :
    mapLines f ('`' :: '`' :: '`' :: '\n' :: (m ++ ['\n', '`', '`', '`'])) =
      '`' :: '`' :: '`' :: '\n' :: (f m ++ ['\n', '`', '`', '`']) := by
  rw [mapLines]
  have e1 : '`' :: '`' :: '`' :: '\n' :: (m ++ ['\n', '`', '`', '`']) =
      ['`', '`', '`'] ++ '\n' :: (m ++ '\n' :: ['`', '`', '`']) := by simp
  rw [e1, splitLines_append _ _ (by decide), splitLines_append m _ hm,
    splitLines_of_not_mem _ (by decide)]
  simp [joinLines, hf]

/-- A single line containing no emphasis marker, no backtick and no
newline is left unchanged by the five passes after the heading rules. -/
theorem tailRules_single (l : List Char) (hstar : '*' ∉ l)
    (htick : '`' ∉ l) (hnl : '\n' ∉ l) :
    lineBreakRule (codeFenceRule (mermaidRule
      (mapLines italicLine (mapLines boldLine l)))) = l := by
  rw [mapLines_single _ l hnl, boldLine_of_not_mem l hstar,
    mapLines_single _ l hnl, italicLine_of_not_mem l hstar,
    mermaidRule_of_none l (splitFirst_eq_none_of_not_mem '`' _ l htick),
    codeFenceRule_of_none l (splitFirst_eq_none_of_not_mem '`' _ l htick),
    lineBreakRule_of_not_mem l hnl]

/-! ## Sample documents used by witnesses and counterexamples -/

/-- A one-fence document whose diagram source is `a`. -/
def t1 : List Char := "```mermaid\na\n```".data

/-- A one-fence document whose diagram source is `b`. -/
def t2 : List Char := "```mermaid\nb\n```".data

/-- The empty-fence document of the spec scenario. -/
def emptyFence : List Char := "```mermaid\n\n```".data

/-! ## Claims -/

/-- C10: for every editor change event, including one delivering an absent
(undefined/null) value, the stored document text is the delivered string,
with an absent value coerced to the empty string; the state always holds a
string. -/
theorem c10_editor_change_stores_string (s : WState) (v : Option (List Char)) :
    (step s (.edit v)).content = handleEditorChange v ∧
      handleEditorChange none = [] := by
  constructor
  · by_cases h : handleEditorChange v = s.content
    · simp [step, h]
    · cases hx : extractMermaidDiagrams (handleEditorChange v) with
      | nil => simp [step, h, hx]
      | cons b bs => simp [step, h, hx]
  · rfl

/-- C9: switching the active tab only stores the new tab value; document
text, revision, committed diagram markup, in-flight renders, and therefore
the projected preview, the extracted blocks and the outline are all
unchanged. -/
theorem c9_tab_switch_no_recompute (s : WState) (t : List Char) :
    step s (.switchTab t) = { s with activeTab := t } ∧
      (step s (.switchTab t)).content = s.content ∧
      renderMarkdown (step s (.switchTab t)).content =
        renderMarkdown s.content ∧
      extractMermaidDiagrams (step s (.switchTab t)).content =
        extractMermaidDiagrams s.content ∧
      outlineView (step s (.switchTab t)).content = outlineView s.content ∧
      (step s (.switchTab t)).diagramHtml = s.diagramHtml ∧
      (step s (.switchTab t)).pending = s.pending :=
  ⟨rfl, rfl, rfl, rfl, rfl, rfl, rfl⟩

/-- C3: a failing render commits the fixed failure markup (a populated
error message) as a value — the `catch` branch never rethrows — and the
document text, hence the preview projection and the outline, are untouched
by the failure. -/
theorem c3_render_failure_yields_value (s : WState) (i : Nat)
    (reason : List Char) (h : i < s.pending.length) :
    (step s (.complete i (.err reason))).diagramHtml = errorHtml ∧
      errorHtml ≠ [] ∧
      (step s (.complete i (.err reason))).content = s.content ∧
      renderMarkdown (step s (.complete i (.err reason))).content =
        renderMarkdown s.content ∧
      outlineView (step s (.complete i (.err reason))).content =
        outlineView s.content := by
  refine ⟨by simp [step, h]; rfl, by decide, by simp [step, h], ?_, ?_⟩
  · simp [step, h]
  · simp [step, h]

/-- Witness for C3 at a concrete state with one in-flight render. -/
theorem c3_render_failure_yields_value_w :
    (step ⟨['x'], 1, "editor".data, [], [(1, ['a'])]⟩
        (.complete 0 (.err "boom".data))).diagramHtml = errorHtml ∧
      errorHtml ≠ [] ∧
      (step ⟨['x'], 1, "editor".data, [], [(1, ['a'])]⟩
        (.complete 0 (.err "boom".data))).content = ['x'] ∧
      renderMarkdown (step ⟨['x'], 1, "editor".data, [], [(1, ['a'])]⟩
        (.complete 0 (.err "boom".data))).content = renderMarkdown ['x'] ∧
      outlineView (step ⟨['x'], 1, "editor".data, [], [(1, ['a'])]⟩
        (.complete 0 (.err "boom".data))).content = outlineView ['x'] :=
  c3_render_failure_yields_value ⟨['x'], 1, "editor".data, [], [(1, ['a'])]⟩
    0 "boom".data (by decide)

/-- C1 counterexample: two edits produce revisions 1 and 2 with renders of
sources `a` and `b` in flight; the revision-2 render commits first, then
the revision-1 render completes — and its result overwrites the committed
revision-2 markup, because `setDiagramHtml` is applied with no revision
comparison.  The final view state holds revision 1's artifact, so the
claimed last-write-wins-by-revision discard does not hold. -/
theorem c1_stale_render_overwrites_cx :
    (step (step w0 (.edit (some t1))) (.edit (some t2))).pending =
      [(1, ['a']), (2, ['b'])] ∧
    (step (step (step (step w0 (.edit (some t1))) (.edit (some t2)))
        (.complete 1 (.ok "svgB".data))) (.complete 0 (.ok "svgA".data))).diagramHtml
      = "svgA".data ∧
    "svgA".data ≠ "svgB".data := by decide

/-- C1 amended: commits happen in completion order with no revision
comparison — with an older-revision and a newer-revision render both in
flight, completing the newer one and then the older one leaves the older
result committed, whatever the revision numbers say. -/
theorem c1_commit_follows_completion_order (s : WState) (rI rJ : Nat)
    (sI sJ : List Char) (resI resJ : RenderResult)
    (hp : s.pending = [(rI, sI), (rJ, sJ)]) (_hlt : rI < rJ) :
    (step (step s (.complete 1 resJ)) (.complete 0 resI)).diagramHtml
      = htmlOfResult resI := by
  simp [step, hp, List.eraseIdx]

/-- Witness for the amended C1 behaviour at a concrete state. -/
theorem c1_commit_follows_completion_order_w :
    (step (step ⟨[], 2, "editor".data, [], [(1, ['a']), (2, ['b'])]⟩
        (.complete 1 (.ok ['y']))) (.complete 0 (.ok ['x']))).diagramHtml
      = htmlOfResult (.ok ['x']) :=
  c1_commit_follows_completion_order
    ⟨[], 2, "editor".data, [], [(1, ['a']), (2, ['b'])]⟩
    1 2 ['a'] ['b'] (.ok ['x']) (.ok ['y']) rfl (by decide)

/-- C2 counterexample: for the empty-fence document the extractor yields a
block with empty `sourceText`, and the edit *does* issue a render call for
it — the in-flight list gains the pair `(1, "")`, i.e. the external
service is called with the empty source, and no `Failed` artifact carrying
an empty-source message is produced at that point (`diagramHtml` remains
unchanged). -/
theorem c2_empty_source_calls_service_cx :
    extractMermaidDiagrams emptyFence = [⟨[], 0, 0, 15⟩] ∧
    (step w0 (.edit (some emptyFence))).pending = [(1, [])] ∧
    (step w0 (.edit (some emptyFence))).diagramHtml = [] := by decide

/-- C2 amended: an empty diagram fence extracts a block with empty
`sourceText` and the external service *is* invoked on that empty source
(one render call is appended to the in-flight list); if the service then
fails, the committed artifact is the generic `Error rendering diagram`
markup, not an empty-source-specific message. -/
theorem c2_empty_source_still_rendered (s : WState)
    (h : emptyFence ≠ s.content) :
    (step s (.edit (some emptyFence))).pending =
        s.pending ++ [(s.revision + 1, [])] ∧
      ∀ reason, (step (step s (.edit (some emptyFence)))
          (.complete s.pending.length (.err reason))).diagramHtml
        = errorHtml := by
  have hx : extractMermaidDiagrams emptyFence = [⟨[], 0, 0, 15⟩] := by decide
  have hc : handleEditorChange (some emptyFence) = emptyFence := rfl
  constructor
  · simp [step, hc, h, hx]
  · intro reason
    set s1 := step s (.edit (some emptyFence)) with hs1
    have h1 : s1.pending = s.pending ++ [(s.revision + 1, [])] := by
      rw [hs1]; simp [step, hc, h, hx]
    have hlt : s.pending.length < s1.pending.length := by
      rw [h1]; simp
    simp [step, hlt, htmlOfResult, errorHtml]

/-- Witness for the amended C2 behaviour from the initial state. -/
theorem c2_empty_source_still_rendered_w :
    (step w0 (.edit (some emptyFence))).pending = [(1, [])] ∧
      (step (step w0 (.edit (some emptyFence)))
          (.complete 0 (.err "parse".data))).diagramHtml = errorHtml :=
  ⟨(c2_empty_source_still_rendered w0 (by decide)).1,
    (c2_empty_source_still_rendered w0 (by decide)).2 "parse".data⟩

/-- C5: the extractor returns the diagram-tagged fences in document order:
ordinals are exactly `0 .. N-1`, the spans are non-overlapping and
ordered, and each block's span in the document is precisely the fence
markers around its `sourceText` (so `sourceText` is the inner content with
the markers excluded). -/
theorem c5_extract_ordered_blocks (s : List Char) :
    ((extractMermaidDiagrams s).map DiagramBlock.ordinalIndex
        = List.range (extractMermaidDiagrams s).length) ∧
      List.Chain' (fun a b => a.spanEnd ≤ b.spanStart)
        (extractMermaidDiagrams s) ∧
      ∀ b ∈ extractMermaidDiagrams s,
        (s.drop b.spanStart).take (b.spanEnd - b.spanStart)
          = mmHdr ++ b.sourceText ++ mmCls := by
  obtain ⟨h1, h2, h3⟩ := extractF_spec s.length s 0 0 le_rfl
  refine ⟨?_, h3, ?_⟩
  · rw [List.range_eq_range']
    exact h1
  · intro b hb
    have := (h2 b hb).2
    simpa using this

/-- C6: an accepted edit issues exactly one fresh render request, for the
block at ordinal 0 (the head of the extraction) when one exists and none
otherwise; every extracted block other than the first has ordinal ≥ 1 and
no request is ever issued for it. -/
theorem c6_renders_first_block_only (s : WState) (v : Option (List Char))
    (h : handleEditorChange v ≠ s.content) :
    (step s (.edit v)).pending = s.pending ++
        ((extractMermaidDiagrams (handleEditorChange v)).take 1).map
          (fun b => (s.revision + 1, b.sourceText)) ∧
      ∀ b ∈ (extractMermaidDiagrams (handleEditorChange v)).drop 1,
        1 ≤ b.ordinalIndex := by
  constructor
  · cases hx : extractMermaidDiagrams (handleEditorChange v) with
    | nil => simp [step, h, hx]
    | cons b bs => simp [step, h, hx]
  · intro b hb
    have hmap : (extractMermaidDiagrams (handleEditorChange v)).map
          DiagramBlock.ordinalIndex
        = List.range' 0 (extractMermaidDiagrams (handleEditorChange v)).length :=
      (extractF_spec (handleEditorChange v).length (handleEditorChange v)
        0 0 le_rfl).1
    have hmem : b.ordinalIndex ∈
        ((extractMermaidDiagrams (handleEditorChange v)).drop 1).map
          DiagramBlock.ordinalIndex :=
      List.mem_map_of_mem DiagramBlock.ordinalIndex hb
    rw [List.map_drop, hmap] at hmem
    cases hn : (extractMermaidDiagrams (handleEditorChange v)).length with
    | zero => rw [hn] at hmem; simp at hmem
    | succ m =>
      rw [hn, List.range'_succ] at hmem
      simp only [List.drop_succ_cons, List.drop_zero] at hmem
      exact (List.mem_range'_1.mp hmem).1

/-- Witness for C6: the sample edit issues the single request `(1, "a")`. -/
theorem c6_renders_first_block_only_w :
    (step w0 (.edit (some t1))).pending = [(1, ['a'])] :=
  (c6_renders_first_block_only w0 (some t1) (by decide)).1

/-- C8 counterexample: for a document whose headings have levels
`[1,2,3,2,1]` the outline pane shows the same ten fixed entries as for the
empty document — in particular no entry is labelled `a`, though the claim
requires root children labelled from the document's headings.  The outline
is not built by scanning the text. -/
theorem c8_outline_ignores_text_cx :
    outlineView "# a\n## b\n### c\n## d\n# e".data = outlineView [] ∧
      ['a'] ∉ (outlineView "# a\n## b\n### c\n## d\n# e".data).map Prod.snd ∧
      (outlineView "# a\n## b\n### c\n## d\n# e".data).length = 10 := by
  decide

/-- C8 amended: the outline pane is a hard-coded constant — the ten
entries of the default document at paddings 0/4/8 — and is identical for
all document texts; no heading scan or ancestor stack exists. -/
theorem c8_outline_is_constant (t u : List Char) :
    outlineView t = outlineView u ∧
      (outlineView t).map Prod.fst = [0, 4, 4, 4, 8, 8, 8, 8, 4, 4] :=
  ⟨rfl, rfl⟩

/-- C7 counterexample: a line with four heading markers is returned
character-for-character unchanged — no heading markup of any level is
produced (the output does not even open a tag), though the claim requires
a level-4 heading node. -/
theorem c7_level4_passthrough_cx :
    renderMarkdown "#### T".data = "#### T".data ∧
      liPre ['<'] (renderMarkdown "#### T".data) = false := by decide

/-- C7 amended: heading lines of levels 1-3 produce the corresponding
heading markup (marker count = level), but lines with 4, 5 or 6 markers
match no rule and pass through unchanged: only `^#`, `^##` and `^###`
rules exist. -/
theorem c7_heading_rules_one_to_three (t : List Char) (hstar : '*' ∉ t)
    (htick : '`' ∉ t) (hnl : '\n' ∉ t) :
    renderMarkdown ('#' :: ' ' :: t) = h1Open ++ t ++ "</h1>".data ∧
      renderMarkdown ('#' :: '#' :: ' ' :: t) =
        h2Open ++ t ++ "</h2>".data ∧
      renderMarkdown ('#' :: '#' :: '#' :: ' ' :: t) =
        h3Open ++ t ++ "</h3>".data ∧
      renderMarkdown ('#' :: '#' :: '#' :: '#' :: ' ' :: t) =
        '#' :: '#' :: '#' :: '#' :: ' ' :: t ∧
      renderMarkdown ('#' :: '#' :: '#' :: '#' :: '#' :: ' ' :: t) =
        '#' :: '#' :: '#' :: '#' :: '#' :: ' ' :: t ∧
      renderMarkdown ('#' :: '#' :: '#' :: '#' :: '#' :: '#' :: ' ' :: t) =
        '#' :: '#' :: '#' :: '#' :: '#' :: '#' :: ' ' :: t := by
  refine ⟨?_, ?_, ?_, ?_, ?_, ?_⟩
  · have hl : '\n' ∉ ('#' :: ' ' :: t) :=
      not_mem_cons2 _ _ _ (by decide) (not_mem_cons2 _ _ _ (by decide) hnl)
    have hw : '\n' ∉ h1Open ++ t ++ "</h1>".data :=
      not_mem_append3 _ _ _ _ (by decide) hnl (by decide)
    rw [renderMarkdown, mapLines_single lineH1 _ hl,
      show lineH1 ('#' :: ' ' :: t) = h1Open ++ t ++ "</h1>".data from rfl,
      mapLines_single lineH2 _ hw,
      show lineH2 (h1Open ++ t ++ "</h1>".data) =
        h1Open ++ t ++ "</h1>".data from rfl,
      mapLines_single lineH3 _ hw,
      show lineH3 (h1Open ++ t ++ "</h1>".data) =
        h1Open ++ t ++ "</h1>".data from rfl]
    exact tailRules_single _
      (not_mem_append3 _ _ _ _ (by decide) hstar (by decide))
      (not_mem_append3 _ _ _ _ (by decide) htick (by decide)) hw
  · have hl : '\n' ∉ ('#' :: '#' :: ' ' :: t) :=
      not_mem_cons2 _ _ _ (by decide) (not_mem_cons2 _ _ _ (by decide)
        (not_mem_cons2 _ _ _ (by decide) hnl))
    have hw : '\n' ∉ h2Open ++ t ++ "</h2>".data :=
      not_mem_append3 _ _ _ _ (by decide) hnl (by decide)
    rw [renderMarkdown, mapLines_single lineH1 _ hl,
      show lineH1 ('#' :: '#' :: ' ' :: t) = '#' :: '#' :: ' ' :: t from rfl,
      mapLines_single lineH2 _ hl,
      show lineH2 ('#' :: '#' :: ' ' :: t) =
        h2Open ++ t ++ "</h2>".data from rfl,
      mapLines_single lineH3 _ hw,
      show lineH3 (h2Open ++ t ++ "</h2>".data) =
        h2Open ++ t ++ "</h2>".data from rfl]
    exact tailRules_single _
      (not_mem_append3 _ _ _ _ (by decide) hstar (by decide))
      (not_mem_append3 _ _ _ _ (by decide) htick (by decide)) hw
  · have hl : '\n' ∉ ('#' :: '#' :: '#' :: ' ' :: t) :=
      not_mem_cons2 _ _ _ (by decide) (not_mem_cons2 _ _ _ (by decide)
        (not_mem_cons2 _ _ _ (by decide)
          (not_mem_cons2 _ _ _ (by decide) hnl)))
    have hw : '\n' ∉ h3Open ++ t ++ "</h3>".data :=
      not_mem_append3 _ _ _ _ (by decide) hnl (by decide)
    rw [renderMarkdown, mapLines_single lineH1 _ hl,
      show lineH1 ('#' :: '#' :: '#' :: ' ' :: t) =
        '#' :: '#' :: '#' :: ' ' :: t from rfl,
      mapLines_single lineH2 _ hl,
      show lineH2 ('#' :: '#' :: '#' :: ' ' :: t) =
        '#' :: '#' :: '#' :: ' ' :: t from rfl,
      mapLines_single lineH3 _ hl,
      show lineH3 ('#' :: '#' :: '#' :: ' ' :: t) =
        h3Open ++ t ++ "</h3>".data from rfl]
    exact tailRules_single _
      (not_mem_append3 _ _ _ _ (by decide) hstar (by decide))
      (not_mem_append3 _ _ _ _ (by decide) htick (by decide)) hw
  · have hl : '\n' ∉ ('#' :: '#' :: '#' :: '#' :: ' ' :: t) :=
      not_mem_cons2 _ _ _ (by decide) (not_mem_cons2 _ _ _ (by decide)
        (not_mem_cons2 _ _ _ (by decide) (not_mem_cons2 _ _ _ (by decide)
          (not_mem_cons2 _ _ _ (by decide) hnl))))
    rw [renderMarkdown, mapLines_single lineH1 _ hl,
      show lineH1 ('#' :: '#' :: '#' :: '#' :: ' ' :: t) =
        '#' :: '#' :: '#' :: '#' :: ' ' :: t from rfl,
      mapLines_single lineH2 _ hl,
      show lineH2 ('#' :: '#' :: '#' :: '#' :: ' ' :: t) =
        '#' :: '#' :: '#' :: '#' :: ' ' :: t from rfl,
      mapLines_single lineH3 _ hl,
      show lineH3 ('#' :: '#' :: '#' :: '#' :: ' ' :: t) =
        '#' :: '#' :: '#' :: '#' :: ' ' :: t from rfl]
    exact tailRules_single _
      (not_mem_cons2 _ _ _ (by decide) (not_mem_cons2 _ _ _ (by decide)
        (not_mem_cons2 _ _ _ (by decide) (not_mem_cons2 _ _ _ (by decide)
          (not_mem_cons2 _ _ _ (by decide) hstar)))))
      (not_mem_cons2 _ _ _ (by decide) (not_mem_cons2 _ _ _ (by decide)
        (not_mem_cons2 _ _ _ (by decide) (not_mem_cons2 _ _ _ (by decide)
          (not_mem_cons2 _ _ _ (by decide) htick))))) hl
  · have hl : '\n' ∉ ('#' :: '#' :: '#' :: '#' :: '#' :: ' ' :: t) :=
      not_mem_cons2 _ _ _ (by decide) (not_mem_cons2 _ _ _ (by decide)
        (not_mem_cons2 _ _ _ (by decide) (not_mem_cons2 _ _ _ (by decide)
          (not_mem_cons2 _ _ _ (by decide)
            (not_mem_cons2 _ _ _ (by decide) hnl)))))
    rw [renderMarkdown, mapLines_single lineH1 _ hl,
      show lineH1 ('#' :: '#' :: '#' :: '#' :: '#' :: ' ' :: t) =
        '#' :: '#' :: '#' :: '#' :: '#' :: ' ' :: t from rfl,
      mapLines_single lineH2 _ hl,
      show lineH2 ('#' :: '#' :: '#' :: '#' :: '#' :: ' ' :: t) =
        '#' :: '#' :: '#' :: '#' :: '#' :: ' ' :: t from rfl,
      mapLines_single lineH3 _ hl,
      show lineH3 ('#' :: '#' :: '#' :: '#' :: '#' :: ' ' :: t) =
        '#' :: '#' :: '#' :: '#' :: '#' :: ' ' :: t from rfl]
    exact tailRules_single _
      (not_mem_cons2 _ _ _ (by decide) (not_mem_cons2 _ _ _ (by decide)
        (not_mem_cons2 _ _ _ (by decide) (not_mem_cons2 _ _ _ (by decide)
          (not_mem_cons2 _ _ _ (by decide)
            (not_mem_cons2 _ _ _ (by decide) hstar))))))
      (not_mem_cons2 _ _ _ (by decide) (not_mem_cons2 _ _ _ (by decide)
        (not_mem_cons2 _ _ _ (by decide) (not_mem_cons2 _ _ _ (by decide)
          (not_mem_cons2 _ _ _ (by decide)
            (not_mem_cons2 _ _ _ (by decide) htick)))))) hl
  · have hl : '\n' ∉ ('#' :: '#' :: '#' :: '#' :: '#' :: '#' :: ' ' :: t) :=
      not_mem_cons2 _ _ _ (by decide) (not_mem_cons2 _ _ _ (by decide)
        (not_mem_cons2 _ _ _ (by decide) (not_mem_cons2 _ _ _ (by decide)
          (not_mem_cons2 _ _ _ (by decide) (not_mem_cons2 _ _ _ (by decide)
            (not_mem_cons2 _ _ _ (by decide) hnl))))))
    rw [renderMarkdown, mapLines_single lineH1 _ hl,
      show lineH1 ('#' :: '#' :: '#' :: '#' :: '#' :: '#' :: ' ' :: t) =
        '#' :: '#' :: '#' :: '#' :: '#' :: '#' :: ' ' :: t from rfl,
      mapLines_single lineH2 _ hl,
      show lineH2 ('#' :: '#' :: '#' :: '#' :: '#' :: '#' :: ' ' :: t) =
        '#' :: '#' :: '#' :: '#' :: '#' :: '#' :: ' ' :: t from rfl,
      mapLines_single lineH3 _ hl,
      show lineH3 ('#' :: '#' :: '#' :: '#' :: '#' :: '#' :: ' ' :: t) =
        '#' :: '#' :: '#' :: '#' :: '#' :: '#' :: ' ' :: t from rfl]
    exact tailRules_single _
      (not_mem_cons2 _ _ _ (by decide) (not_mem_cons2 _ _ _ (by decide)
        (not_mem_cons2 _ _ _ (by decide) (not_mem_cons2 _ _ _ (by decide)
          (not_mem_cons2 _ _ _ (by decide) (not_mem_cons2 _ _ _ (by decide)
            (not_mem_cons2 _ _ _ (by decide) hstar)))))))
      (not_mem_cons2 _ _ _ (by decide) (not_mem_cons2 _ _ _ (by decide)
        (not_mem_cons2 _ _ _ (by decide) (not_mem_cons2 _ _ _ (by decide)
          (not_mem_cons2 _ _ _ (by decide) (not_mem_cons2 _ _ _ (by decide)
            (not_mem_cons2 _ _ _ (by decide) htick))))))) hl

/-- Witness for the amended C7 behaviour with heading text `T`. -/
theorem c7_heading_rules_one_to_three_w :
    renderMarkdown ('#' :: ' ' :: ['T']) = h1Open ++ ['T'] ++ "</h1>".data ∧
      renderMarkdown ('#' :: '#' :: '#' :: '#' :: ' ' :: ['T']) =
        '#' :: '#' :: '#' :: '#' :: ' ' :: ['T'] :=
  ⟨(c7_heading_rules_one_to_three ['T'] (by decide) (by decide) (by decide)).1,
    (c7_heading_rules_one_to_three ['T'] (by decide) (by decide)
      (by decide)).2.2.2.1⟩

/-- C4 counterexample: in `"```\n**bold**\n```"` the fenced body is *not*
reproduced verbatim — the bold rule has already run inside it, because the
emphasis replacements precede the fence replacements in the source, so the
code block's body comes out as `<strong>bold</strong>` instead of
`**bold**`. -/
theorem c4_emphasis_inside_fence_cx :
    renderMarkdown "```\n**bold**\n```".data =
        preOpen ++ "<strong>bold</strong>".data ++ preClose ∧
      renderMarkdown "```\n**bold**\n```".data ≠
        preOpen ++ "**bold**".data ++ preClose := by decide

/-- C4 amended: the passes run in the order headings > bold > italic >
diagram fence > code fence > line breaks, so the body of a fenced code
block is reproduced with the emphasis substitutions already applied to it
(verbatim only when no emphasis marker occurs).  For a single-fence
document the projected block is exactly the emphasis-rewritten body. -/
theorem c4_emphasis_precedes_fences (b : List Char)
    (hh1 : lineH1 b = b) (hh2 : lineH2 b = b) (hh3 : lineH3 b = b)
    (hnl : '\n' ∉ b) (htick : '`' ∉ b) :
    renderMarkdown ('`' :: '`' :: '`' :: '\n' :: (b ++ ['\n', '`', '`', '`'])) =
      preOpen ++ italicLine (boldLine b) ++ preClose := by
  have hbnl : '\n' ∉ boldLine b :=
    not_mem_boldLine '\n' b hnl (by decide) (by decide)
  have hbtick : '`' ∉ boldLine b :=
    not_mem_boldLine '`' b htick (by decide) (by decide)
  have hBnl : '\n' ∉ italicLine (boldLine b) :=
    not_mem_italicLine '\n' (boldLine b) hbnl (by decide) (by decide)
  have hBtick : '`' ∉ italicLine (boldLine b) :=
    not_mem_italicLine '`' (boldLine b) hbtick (by decide) (by decide)
  rw [renderMarkdown,
    mapLines_fence lineH1 b rfl hnl, hh1,
    mapLines_fence lineH2 b rfl hnl, hh2,
    mapLines_fence lineH3 b rfl hnl, hh3,
    mapLines_fence boldLine b (by decide) hnl,
    mapLines_fence italicLine (boldLine b) (by decide) hbnl]
  have hmm : splitFirst mmHdr
      ('`' :: '`' :: '`' :: '\n' ::
        (italicLine (boldLine b) ++ ['\n', '`', '`', '`'])) = none := by
    rw [show mmHdr =
        '`' :: ['`', '`', 'm', 'e', 'r', 'm', 'a', 'i', 'd', '\n'] from rfl]
    rw [splitFirst_cons_of_liPre_false _ _ _ (by rfl)]
    rw [splitFirst_cons_of_liPre_false _ _ _ (by rfl)]
    rw [splitFirst_cons_of_liPre_false _ _ _ (by rfl)]
    rw [splitFirst_cons_of_liPre_false _ _ _ (by rfl)]
    rw [splitFirst_append_of_not_mem '`' _ (italicLine (boldLine b)) _ hBtick]
    rw [show splitFirst
        ('`' :: ['`', '`', 'm', 'e', 'r', 'm', 'a', 'i', 'd', '\n'])
        ['\n', '`', '`', '`'] = none from by decide]
    rfl
  rw [mermaidRule_of_none _ hmm]
  have hcf3 : splitFirst mmCls
      (italicLine (boldLine b) ++ ['\n', '`', '`', '`']) =
        some (italicLine (boldLine b), []) := by
    rw [show mmCls = '\n' :: ['`', '`', '`'] from rfl]
    rw [splitFirst_append_of_not_mem '\n' _ (italicLine (boldLine b)) _ hBnl]
    rw [show splitFirst ('\n' :: ['`', '`', '`']) ['\n', '`', '`', '`'] =
        some ([], []) from by decide]
    simp
  rw [codeFenceRule_step
      ('`' :: '`' :: '`' :: '\n' ::
        (italicLine (boldLine b) ++ ['\n', '`', '`', '`']))
      []
      ('\n' :: (italicLine (boldLine b) ++ ['\n', '`', '`', '`']))
      []
      (italicLine (boldLine b) ++ ['\n', '`', '`', '`'])
      (italicLine (boldLine b)) rfl rfl hcf3]
  simp only [List.nil_append]
  rw [lineBreakRule_of_not_mem _
    (not_mem_append3 '\n' _ _ _ (by decide) hBnl (by decide))]

/-- Witness for the amended C4 behaviour: the fence body `**bold**` comes
out bold-rewritten. -/
theorem c4_emphasis_precedes_fences_w :
    renderMarkdown
        ('`' :: '`' :: '`' :: '\n' :: ("**bold**".data ++ ['\n', '`', '`', '`'])) =
      preOpen ++ italicLine (boldLine "**bold**".data) ++ preClose :=
  c4_emphasis_precedes_fences "**bold**".data rfl rfl rfl (by decide)
    (by decide)
